import Mathlib

set_option maxHeartbeats 1000000

/-
Verification of the cursor-pagination engine of the stripe-rs client
(`src/params.rs`): the `List<T>` page type, the page fetcher
`List::get_next`, the explicit `List::next`, the lazy walker (the async
`List::get_all` stream) and the eager collector (the blocking
`List::get_all`).

The HTTP transport (`crate::config::Client`) is an external collaborator;
it is modelled as a finite script of responses consumed one per GET,
together with a log of the GET paths issued, so that theorems can speak
about how many requests a walk performs and with which query strings.
-/

namespace StripeRs

/-- Errors of the client (`crate::error::Error`).  Only the `Unsupported`
variant is constructed by the pagination code itself; every other failure
mode of the transport (network, HTTP status, deserialization, ...) enters
the model as an abstract `Http` code produced by the transport script. -/
inductive Error where
  | Unsupported : String → Error
  | Http : Nat → Error
deriving DecidableEq

/-- The page type `List<T>` of `src/params.rs` (named `StripeList` here to
avoid clashing with Lean's `List`). -/
structure StripeList (T : Type) where
  data : List T
  has_more : Bool
  total_count : Option Nat
  url : String
  params : Option String
deriving DecidableEq

/-- Decidable equality for `Except`, needed to evaluate concrete
pagination runs with `decide`. -/
instance exceptDecEq {ε σ : Type} [DecidableEq ε] [DecidableEq σ] :
    DecidableEq (Except ε σ)
  | Except.error x, Except.error y =>
    if h : x = y then isTrue (by rw [h])
    else isFalse (by intro hh; cases hh; exact h rfl)
  | Except.error _, Except.ok _ => isFalse (by intro hh; cases hh)
  | Except.ok _, Except.error _ => isFalse (by intro hh; cases hh)
  | Except.ok x, Except.ok y =>
    if h : x = y then isTrue (by rw [h])
    else isFalse (by intro hh; cases hh; exact h rfl)

/-- The HTTP transport (`crate::config::Client`): a finite script of
responses, consumed one per GET, plus the log of issued GET paths. -/
structure Client (T : Type) where
  script : List (Except Error (StripeList T))
  requests : List String
deriving DecidableEq

variable {T : Type} {α : Type}

/-- One HTTP GET (`client.get(&url)`): logs the path and consumes the next
scripted response.  An exhausted script is a transport failure. -/
def httpGet (c : Client T) (path : String) : Except Error (StripeList T) × Client T :=
  match c.script with
  | [] => (Except.error (Error.Http 0), { c with requests := c.requests ++ [path] })
  | r :: rest => (r, { script := rest, requests := c.requests ++ [path] })

/-- Rust `str::starts_with` on string slices (prefix test on the
character sequence). -/
def strStartsWith (s pre : String) : Bool :=
  pre.data.isPrefixOf s.data

/-- Rust `str::contains(char)`. -/
def strContainsChar (s : String) (ch : Char) : Bool :=
  s.data.contains ch

/-- Drop the first `n` characters of a string. -/
def strDrop (s : String) (n : Nat) : String :=
  ⟨s.data.drop n⟩

/-- Character length of a string. -/
def strLen (s : String) : Nat :=
  s.data.length

/-- Fuelled worker for `trimStartMatches`; the fuel is the length of the
subject string, enough because each step removes a nonempty prefix. -/
def trimStartMatchesAux (pre : String) : Nat → String → String
  | 0, s => s
  | fuel + 1, s =>
    if strStartsWith s pre && !pre.data.isEmpty then
      trimStartMatchesAux pre fuel (strDrop s (strLen pre))
    else s

/-- Rust `str::trim_start_matches`: repeatedly removes the prefix `pre`
from the front of `s`, as many times as it occurs. -/
def trimStartMatches (s pre : String) : String :=
  trimStartMatchesAux pre (strLen s) s

/-- The continuation URL built by `List::get_next` once the version prefix
check has passed: strip the `"/v1/"` prefix (repeatedly, per
`trim_start_matches`), append `starting_after=<last_id>` with `?` or `&`,
then append `&<params>` when `params` is present and nonempty. -/
def nextUrl (url : String) (last_id : String) (params : Option String) : String :=
  let u := trimStartMatches url "/v1/"
  let u :=
    if strContainsChar u '?' then u ++ ("&starting_after=" ++ last_id)
    else u ++ ("?starting_after=" ++ last_id)
  match params with
  | some p => if p.data.isEmpty then u else u ++ ("&" ++ p)
  | none => u

/-- Re-attaching the caller's opaque params to a freshly deserialized page
(the async branch of `List::get_next`: the wire response does not carry
`params`, so it is stamped back on when the caller passed some). -/
def stampParams (params : Option String) (l : StripeList T) : StripeList T :=
  match params with
  | some p => { l with params := some p }
  | none => l

/-- The page fetcher `List::get_next` of `src/params.rs`: check the
version prefix, build the continuation URL, issue the GET, re-attach the
params; a url on a different API version fails with `Unsupported` without
touching the transport. -/
def get_next (c : Client T) (url : String) (last_id : String) (params : Option String) :
    Except Error (StripeList T) × Client T :=
  if strStartsWith url "/v1/" then
    match httpGet c (nextUrl url last_id params) with
    | (Except.ok l, c1) => (Except.ok (stampParams params l), c1)
    | (Except.error e, c1) => (Except.error e, c1)
  else
    (Except.error (Error.Unsupported "URL for fetching additional data uses different API version"), c)

/-- Rust `Vec::pop`: removes and returns the last element. -/
def popLast : List α → Option (α × List α)
  | [] => none
  | [a] => some (a, [])
  | a :: b :: rest =>
    match popLast (b :: rest) with
    | some (x, r) => some (x, a :: r)
    | none => none

theorem popLast_nil : popLast ([] : List α) = none := rfl

theorem popLast_length {d : List α} {v : α} {r : List α}
    (h : popLast d = some (v, r)) : r.length < d.length := by
  induction d generalizing v r with
  | nil => simp [popLast] at h
  | cons a t ih =>
    cases t with
    | nil =>
      simp [popLast] at h
      simp [h.2]
    | cons b t2 =>
      have hstep : popLast (a :: b :: t2)
          = match popLast (b :: t2) with
            | some (x, r2) => some (x, a :: r2)
            | none => none := rfl
      rw [hstep] at h
      cases hp : popLast (b :: t2) with
      | none => rw [hp] at h; simp at h
      | some pr =>
        obtain ⟨x, r2⟩ := pr
        rw [hp] at h
        simp at h
        obtain ⟨hx, hr⟩ := h
        subst hr
        have := ih hp
        simpa using Nat.succ_lt_succ this

theorem popLast_append_singleton (l : List α) (a : α) :
    popLast (l ++ [a]) = some (a, l) := by
  induction l with
  | nil => rfl
  | cons x t ih =>
    cases t with
    | nil => rfl
    | cons b t2 =>
      have hstep : popLast ((x :: b :: t2) ++ [a])
          = match popLast ((b :: t2) ++ [a]) with
            | some (y, r2) => some (y, x :: r2)
            | none => none := rfl
      rw [hstep, ih]

theorem popLast_reverse_cons (a : α) (l : List α) :
    popLast ((a :: l).reverse) = some (a, l.reverse) := by
  rw [List.reverse_cons, popLast_append_singleton]

theorem get_next_not_v1 (c : Client T) (u i : String) (pp : Option String)
    (hu : strStartsWith u "/v1/" = false) :
    get_next c u i pp
      = (Except.error
          (Error.Unsupported "URL for fetching additional data uses different API version"),
         c) := by
  simp [get_next, hu]

theorem get_next_nil (rq : List String) (u i : String) (pp : Option String)
    (hu : strStartsWith u "/v1/" = true) :
    get_next (⟨[], rq⟩ : Client T) u i pp
      = (Except.error (Error.Http 0), ⟨[], rq ++ [nextUrl u i pp]⟩) := by
  simp [get_next, hu, httpGet]

theorem get_next_cons_ok (p : StripeList T) (rest : List (Except Error (StripeList T)))
    (rq : List String) (u i : String) (pp : Option String)
    (hu : strStartsWith u "/v1/" = true) :
    get_next (⟨Except.ok p :: rest, rq⟩ : Client T) u i pp
      = (Except.ok (stampParams pp p), ⟨rest, rq ++ [nextUrl u i pp]⟩) := by
  simp [get_next, hu, httpGet]

theorem get_next_cons_error (e : Error) (rest : List (Except Error (StripeList T)))
    (rq : List String) (u i : String) (pp : Option String)
    (hu : strStartsWith u "/v1/" = true) :
    get_next (⟨Except.error e :: rest, rq⟩ : Client T) u i pp
      = (Except.error e, ⟨rest, rq ++ [nextUrl u i pp]⟩) := by
  simp [get_next, hu, httpGet]

theorem get_next_ok_script {c : Client T} {u i : String} {pp : Option String}
    {nl : StripeList T} {c1 : Client T}
    (h : get_next c u i pp = (Except.ok nl, c1)) :
    c1.script.length < c.script.length := by
  obtain ⟨sc, rq⟩ := c
  by_cases hu : strStartsWith u "/v1/" = true
  · cases sc with
    | nil => rw [get_next_nil rq u i pp hu] at h; simp at h
    | cons r rest =>
      cases r with
      | ok p =>
        rw [get_next_cons_ok p rest rq u i pp hu] at h
        simp at h
        rw [← h.2]
        simp
      | error e =>
        rw [get_next_cons_error e rest rq u i pp hu] at h
        simp at h
  · rw [get_next_not_v1 _ u i pp (by simpa using hu)] at h
    simp at h

/-- The lazy walker: the closure of
`futures_util::stream::unfold` in the async `List::get_all` of
`src/params.rs`, materialised into the full finite sequence of stream
elements together with the final transport state.  The page held in the
state carries its `data` reversed, exactly as the stream does (items are
popped off the end of the vector). -/
def walkAux (curs : T → String) (l : StripeList T) (c : Client T) :
    List (Except Error T) × Client T :=
  match hp : popLast l.data with
  | none => ([], c)
  | some (val, rest) =>
    if rest.isEmpty = false then
      let r := walkAux curs { l with data := rest } c
      (Except.ok val :: r.fst, r.snd)
    else if l.has_more = false then
      ([Except.ok val], c)
    else
      match hg : get_next c l.url (curs val) l.params with
      | (Except.ok next_list, c1) =>
        let r := walkAux curs { next_list with data := next_list.data.reverse } c1
        (Except.ok val :: r.fst, r.snd)
      | (Except.error e, c1) => ([Except.error e], c1)
termination_by (c.script.length, l.data.length)
decreasing_by
  · apply Prod.Lex.right
    simpa using popLast_length hp
  · apply Prod.Lex.left
    exact get_next_ok_script hg

/-- The async `List::get_all` of `src/params.rs`: reverse the initial
page's items and stream them out, fetching further pages on demand. -/
def get_all (curs : T → String) (l : StripeList T) (c : Client T) :
    List (Except Error T) × Client T :=
  walkAux curs { l with data := l.data.reverse } c

/-- `List::next` of `src/params.rs` (`Fetch an additional page of data`):
use the last item's cursor as `starting_after`, or, on an empty page,
return an empty terminal page without touching the transport. -/
def next (curs : T → String) (l : StripeList T) (c : Client T) :
    Except Error (StripeList T) × Client T :=
  match l.data.getLast? with
  | some d => get_next c l.url (curs d) l.params
  | none =>
    (Except.ok { data := [], has_more := false, total_count := l.total_count,
                 url := l.url, params := l.params }, c)

theorem next_ok_measure {curs : T → String} {l : StripeList T} {c : Client T}
    {resp : StripeList T} {c1 : Client T}
    (h : next curs l c = (Except.ok resp, c1)) :
    c1.script.length < c.script.length ∨ (c1 = c ∧ resp.has_more = false) := by
  unfold next at h
  cases hd : l.data.getLast? with
  | some d =>
    rw [hd] at h
    exact Or.inl (get_next_ok_script h)
  | none =>
    rw [hd] at h
    simp at h
    right
    refine ⟨h.2.symm, ?_⟩
    rw [← h.1]

/-- Loop body of the blocking `List::get_all` of `src/params.rs`:
accumulate the current page's data, follow `has_more` via `List::next`,
abort on the first error. -/
def get_all_blocking_aux (curs : T → String) (acc : List T) (l : StripeList T)
    (c : Client T) : Except Error (List T) × Client T :=
  if hm : l.has_more = true then
    match hn : next curs l c with
    | (Except.ok resp, c1) => get_all_blocking_aux curs (acc ++ l.data) resp c1
    | (Except.error e, c1) => (Except.error e, c1)
  else
    (Except.ok (acc ++ l.data), c)
termination_by (c.script.length, if l.has_more then 1 else 0)
decreasing_by
  rcases next_ok_measure hn with h | ⟨h1, h2⟩
  · exact Prod.Lex.left _ _ h
  · rw [h1, h2, hm]
    apply Prod.Lex.right
    decide

/-- The blocking `List::get_all` of `src/params.rs`: the eager collector,
starting from an empty accumulator. -/
def get_all_blocking (curs : T → String) (l : StripeList T) (c : Client T) :
    Except Error (List T) × Client T :=
  get_all_blocking_aux curs [] l c

theorem walk_data_nil (curs : T → String) (l : StripeList T) (c : Client T)
    (h : l.data = []) : walkAux curs l c = ([], c) := by
  rw [walkAux.eq_def]
  split
  · rfl
  · rename_i val rest hp
    rw [h] at hp
    simp [popLast] at hp

theorem walk_one_false (curs : T → String) (tc : Option Nat) (url : String)
    (pp : Option String) (c : Client T) (v : T) :
    walkAux curs ⟨[v], false, tc, url, pp⟩ c = ([Except.ok v], c) := by
  rw [walkAux.eq_def]
  split
  · rename_i hp
    simp [popLast] at hp
  · rename_i val rest hp
    simp only [popLast] at hp
    injection hp with hp
    injection hp with h1 h2
    subst h1
    subst h2
    simp

theorem walk_one_fetch (curs : T → String) (tc : Option Nat) (url : String)
    (pp : Option String) (c : Client T) (v : T) :
    walkAux curs ⟨[v], true, tc, url, pp⟩ c =
      match get_next c url (curs v) pp with
      | (Except.ok nl, c1) =>
        (Except.ok v :: (walkAux curs { nl with data := nl.data.reverse } c1).fst,
         (walkAux curs { nl with data := nl.data.reverse } c1).snd)
      | (Except.error e, c1) => ([Except.error e], c1) := by
  rw [walkAux.eq_def]
  split
  · rename_i hp
    simp [popLast] at hp
  · rename_i val rest hp
    simp only [popLast] at hp
    injection hp with hp
    injection hp with h1 h2
    subst h1
    subst h2
    cases hq : get_next c url (curs v) pp with
    | mk r1 c1 =>
      cases r1 with
      | ok nl => simp [hq]
      | error e => simp [hq]

theorem walk_step_more (curs : T → String) (x : T) (xs : List T) (hxs : xs ≠ [])
    (hm : Bool) (tc : Option Nat) (url : String) (pp : Option String) (c : Client T) :
    walkAux curs ⟨(x :: xs).reverse, hm, tc, url, pp⟩ c =
      (Except.ok x :: (walkAux curs ⟨xs.reverse, hm, tc, url, pp⟩ c).fst,
       (walkAux curs ⟨xs.reverse, hm, tc, url, pp⟩ c).snd) := by
  have hre : xs.reverse ≠ [] := by
    simpa using hxs
  rw [walkAux.eq_def]
  split
  · rename_i hp
    rw [show (⟨(x :: xs).reverse, hm, tc, url, pp⟩ : StripeList T).data
        = (x :: xs).reverse from rfl, popLast_reverse_cons] at hp
    simp at hp
  · rename_i val rest hp
    rw [show (⟨(x :: xs).reverse, hm, tc, url, pp⟩ : StripeList T).data
        = (x :: xs).reverse from rfl, popLast_reverse_cons] at hp
    injection hp with hp
    injection hp with h1 h2
    subst h1
    subst h2
    have hie : xs.reverse.isEmpty = false := by
      cases hx : xs.reverse with
      | nil => exact absurd hx hre
      | cons a t => rfl
    rw [if_pos hie]

theorem walk_split (curs : T → String) :
    ∀ (d : List T) (hd : d ≠ []) (hm : Bool) (tc : Option Nat) (url : String)
      (pp : Option String) (c : Client T),
    walkAux curs ⟨d.reverse, hm, tc, url, pp⟩ c
      = (d.dropLast.map Except.ok
           ++ (walkAux curs ⟨[d.getLast hd], hm, tc, url, pp⟩ c).fst,
         (walkAux curs ⟨[d.getLast hd], hm, tc, url, pp⟩ c).snd) := by
  intro d
  induction d with
  | nil => intro hd; exact absurd rfl hd
  | cons x xs ih =>
    intro hd hm tc url pp c
    cases xs with
    | nil => rfl
    | cons y ys =>
      have hxs2 : (y :: ys) ≠ [] := by simp
      rw [walk_step_more curs x (y :: ys) hxs2 hm tc url pp c,
          ih hxs2 hm tc url pp c,
          show (x :: y :: ys).getLast hd = (y :: ys).getLast hxs2 from
            List.getLast_cons hxs2]
      rfl

theorem walk_no_more (curs : T → String) :
    ∀ (d : List T) (tc : Option Nat) (url : String) (pp : Option String)
      (c : Client T),
    walkAux curs ⟨d.reverse, false, tc, url, pp⟩ c = (d.map Except.ok, c) := by
  intro d
  induction d with
  | nil => intro tc url pp c; exact walk_data_nil curs _ c rfl
  | cons x xs ih =>
    intro tc url pp c
    cases xs with
    | nil => exact walk_one_false curs tc url pp c x
    | cons y ys =>
      rw [walk_step_more curs x (y :: ys) (by simp) false tc url pp c,
          ih tc url pp c]
      rfl

/-- Params carried by a freshly fetched page: the caller's params when
present, the deserialized page's own otherwise. -/
def stampOpt (pp ppp : Option String) : Option String :=
  match pp with
  | some s => some s
  | none => ppp

/-- Characterisation of `stampParams` on a literal page. -/
theorem stampParams_mk (pp : Option String) (pd : List T) (phm : Bool)
    (ptc : Option Nat) (purl : String) (ppp : Option String) :
    stampParams pp (⟨pd, phm, ptc, purl, ppp⟩ : StripeList T)
      = ⟨pd, phm, ptc, purl, stampOpt pp ppp⟩ := by
  cases pp <;> rfl

/-- The hypotheses of the concatenation property, as a boolean chain: every
page that announces a continuation (`has_more = true`) has nonempty data
and a same-version url, and the walk ends at a page with `has_more = false`. -/
def chainB (l : StripeList T) : List (StripeList T) → Bool
  | [] => !l.has_more
  | p :: ps => l.has_more && !l.data.isEmpty && strStartsWith l.url "/v1/" && chainB p ps

theorem chainB_stampParams (pp : Option String) (l : StripeList T)
    (ps : List (StripeList T)) :
    chainB (stampParams pp l) ps = chainB l ps := by
  cases pp with
  | none => rfl
  | some s => cases ps <;> rfl

/-- A page from which the eager collector must fetch: it announces more
data, has items to derive a cursor from, and carries a same-version url. -/
def goodB (l : StripeList T) : Bool :=
  l.has_more && !l.data.isEmpty && strStartsWith l.url "/v1/"

theorem goodB_stampParams (pp : Option String) (l : StripeList T) :
    goodB (stampParams pp l) = goodB l := by
  cases pp <;> rfl

theorem isEmpty_false_ne_nil {l : List α} (h : l.isEmpty = false) : l ≠ [] := by
  cases l with
  | nil => simp at h
  | cons a t => simp

/-- Core of the order-preservation property: a walk over a chain of pages
whose continuations all come off the front of the script yields exactly
the concatenation of the pages' data, in order.  Any trailing script is
untouched. -/
theorem walk_chain (curs : T → String) :
    ∀ (pages : List (StripeList T)) (d : List T) (hm : Bool) (tc : Option Nat)
      (url : String) (pp : Option String)
      (sc : List (Except Error (StripeList T))) (rs : List String),
    chainB (⟨d, hm, tc, url, pp⟩ : StripeList T) pages = true →
    (walkAux curs ⟨d.reverse, hm, tc, url, pp⟩ ⟨pages.map Except.ok ++ sc, rs⟩).fst
      = (d ++ (pages.map StripeList.data).flatten).map Except.ok := by
  intro pages
  induction pages with
  | nil =>
    intro d hm tc url pp sc rs h
    simp [chainB] at h
    subst h
    rw [walk_no_more curs d tc url pp _]
    simp
  | cons p ps ih =>
    intro d hm tc url pp sc rs h
    simp [chainB, Bool.and_eq_true] at h
    obtain ⟨⟨⟨hhm, hde⟩, hurl⟩, hch⟩ := h
    subst hhm
    have hd : d ≠ [] := by
      intro hnil
      rw [hnil] at hde
      simp at hde
    rw [walk_split curs d hd true tc url pp _,
        walk_one_fetch curs tc url pp _ (d.getLast hd)]
    rw [show ((p :: ps).map Except.ok ++ sc : List (Except Error (StripeList T)))
        = Except.ok p :: (ps.map Except.ok ++ sc) from rfl]
    rw [get_next_cons_ok p (ps.map Except.ok ++ sc) rs url
        (curs (d.getLast hd)) pp hurl]
    obtain ⟨pd, phm, ptc, purl, ppp⟩ := p
    rw [stampParams_mk]
    have hch2 : chainB
        (⟨pd, phm, ptc, purl, stampOpt pp ppp⟩ : StripeList T) ps = true := by
      have := chainB_stampParams pp (⟨pd, phm, ptc, purl, ppp⟩ : StripeList T) ps
      rw [stampParams_mk] at this
      rw [this]
      exact hch
    have hrec := ih pd phm ptc purl (stampOpt pp ppp) sc
      (rs ++ [nextUrl url (curs (d.getLast hd)) pp]) hch2
    simp only [] at hrec ⊢
    rw [hrec]
    have hsplit : d = d.dropLast ++ [d.getLast hd] :=
      (List.dropLast_append_getLast hd).symm
    conv_rhs => rw [hsplit]
    simp [List.map_append, List.append_assoc]

/-- Core of the error-termination property: a page announcing more data
whose continuation fetch fails yields all items except the popped last
one, then the error, issuing exactly one request. -/
theorem walk_error (curs : T → String) (d : List T) (hd : d ≠ []) (tc : Option Nat)
    (url : String) (pp : Option String) (e : Error)
    (rest : List (Except Error (StripeList T))) (rs : List String)
    (hu : strStartsWith url "/v1/" = true) :
    walkAux curs ⟨d.reverse, true, tc, url, pp⟩ ⟨Except.error e :: rest, rs⟩
      = (d.dropLast.map Except.ok ++ [Except.error e],
         ⟨rest, rs ++ [nextUrl url (curs (d.getLast hd)) pp]⟩) := by
  rw [walk_split curs d hd true tc url pp _,
      walk_one_fetch curs tc url pp _ (d.getLast hd),
      get_next_cons_error e rest rs url (curs (d.getLast hd)) pp hu]

theorem walk_one_fetch_ok (curs : T → String) (tc : Option Nat) (url : String)
    (pp : Option String) (v : T) (p : StripeList T)
    (rest : List (Except Error (StripeList T))) (rs : List String)
    (hu : strStartsWith url "/v1/" = true) :
    walkAux curs ⟨[v], true, tc, url, pp⟩ ⟨Except.ok p :: rest, rs⟩
      = (Except.ok v ::
          (walkAux curs
            { stampParams pp p with data := (stampParams pp p).data.reverse }
            ⟨rest, rs ++ [nextUrl url (curs v) pp]⟩).fst,
         (walkAux curs
            { stampParams pp p with data := (stampParams pp p).data.reverse }
            ⟨rest, rs ++ [nextUrl url (curs v) pp]⟩).snd) := by
  rw [walk_one_fetch, get_next_cons_ok p rest rs url (curs v) pp hu]

theorem walk_one_fetch_error (curs : T → String) (tc : Option Nat) (url : String)
    (pp : Option String) (v : T) (e : Error)
    (rest : List (Except Error (StripeList T))) (rs : List String)
    (hu : strStartsWith url "/v1/" = true) :
    walkAux curs ⟨[v], true, tc, url, pp⟩ ⟨Except.error e :: rest, rs⟩
      = ([Except.error e], ⟨rest, rs ++ [nextUrl url (curs v) pp]⟩) := by
  rw [walk_one_fetch, get_next_cons_error e rest rs url (curs v) pp hu]

theorem walk_one_fetch_nil (curs : T → String) (tc : Option Nat) (url : String)
    (pp : Option String) (v : T) (rs : List String)
    (hu : strStartsWith url "/v1/" = true) :
    walkAux curs ⟨[v], true, tc, url, pp⟩ ⟨[], rs⟩
      = ([Except.error (Error.Http 0)], ⟨[], rs ++ [nextUrl url (curs v) pp]⟩) := by
  rw [walk_one_fetch, get_next_nil rs url (curs v) pp hu]

theorem walk_one_fetch_bad (curs : T → String) (tc : Option Nat) (url : String)
    (pp : Option String) (v : T) (c : Client T)
    (hu : strStartsWith url "/v1/" = false) :
    walkAux curs ⟨[v], true, tc, url, pp⟩ c
      = ([Except.error
            (Error.Unsupported "URL for fetching additional data uses different API version")],
         c) := by
  rw [walk_one_fetch, get_next_not_v1 c url (curs v) pp hu]

theorem next_cons (curs : T → String) (l : StripeList T) (c : Client T)
    (hd : l.data ≠ []) :
    next curs l c = get_next c l.url (curs (l.data.getLast hd)) l.params := by
  unfold next
  rw [List.getLast?_eq_getLast l.data hd]

theorem get_next_requests (c : Client T) (u i : String) (pp : Option String)
    (hu : strStartsWith u "/v1/" = true) :
    (get_next c u i pp).snd.requests = c.requests ++ [nextUrl u i pp] := by
  obtain ⟨sc, rq⟩ := c
  cases sc with
  | nil => rw [get_next_nil rq u i pp hu]
  | cons r rest =>
    cases r with
    | ok p => rw [get_next_cons_ok p rest rq u i pp hu]
    | error e => rw [get_next_cons_error e rest rq u i pp hu]

theorem gab_step (curs : T → String) (acc : List T) (l : StripeList T)
    (c : Client T) (hm : l.has_more = true) :
    get_all_blocking_aux curs acc l c
      = match next curs l c with
        | (Except.ok resp, c1) => get_all_blocking_aux curs (acc ++ l.data) resp c1
        | (Except.error e, c1) => (Except.error e, c1) := by
  rw [get_all_blocking_aux.eq_def, dif_pos hm]
  cases hq : next curs l c with
  | mk r c1 =>
    cases r with
    | ok resp => simp [hq]
    | error e2 => simp [hq]

theorem gab_done (curs : T → String) (acc : List T) (l : StripeList T)
    (c : Client T) (hm : l.has_more = false) :
    get_all_blocking_aux curs acc l c = (Except.ok (acc ++ l.data), c) := by
  rw [get_all_blocking_aux.eq_def, dif_neg (by simp [hm])]

/-- Core of the eager fail-fast property: after any chain of good pages
whose continuations come off the script, an error response aborts the
collection with exactly that error. -/
theorem gab_fail_fast (curs : T → String) :
    ∀ (pages : List (StripeList T)) (acc : List T) (l : StripeList T)
      (rest : List (Except Error (StripeList T))) (rs : List String) (e : Error),
      goodB l = true → (∀ p ∈ pages, goodB p = true) →
      (get_all_blocking_aux curs acc l
          ⟨pages.map Except.ok ++ Except.error e :: rest, rs⟩).fst
        = Except.error e := by
  intro pages
  induction pages with
  | nil =>
    intro acc l rest rs e hl _
    simp [goodB, Bool.and_eq_true] at hl
    obtain ⟨⟨hhm, hde⟩, hurl⟩ := hl
    have hd : l.data ≠ [] := hde
    rw [gab_step curs acc l _ hhm, next_cons curs l _ hd]
    rw [show (([] : List (StripeList T)).map Except.ok ++ Except.error e :: rest
          : List (Except Error (StripeList T))) = Except.error e :: rest from rfl]
    rw [get_next_cons_error e rest rs l.url (curs (l.data.getLast hd)) l.params hurl]
  | cons p ps ih =>
    intro acc l rest rs e hl hps
    simp [goodB, Bool.and_eq_true] at hl
    obtain ⟨⟨hhm, hde⟩, hurl⟩ := hl
    have hd : l.data ≠ [] := hde
    rw [gab_step curs acc l _ hhm, next_cons curs l _ hd]
    rw [show ((p :: ps).map Except.ok ++ Except.error e :: rest
          : List (Except Error (StripeList T)))
        = Except.ok p :: (ps.map Except.ok ++ Except.error e :: rest) from rfl]
    rw [get_next_cons_ok p (ps.map Except.ok ++ Except.error e :: rest) rs l.url
        (curs (l.data.getLast hd)) l.params hurl]
    have hpgood : goodB (stampParams l.params p) = true := by
      rw [goodB_stampParams]
      exact hps p (by simp)
    exact ih (acc ++ l.data) (stampParams l.params p) rest
      (rs ++ [nextUrl l.url (curs (l.data.getLast hd)) l.params]) e hpgood
      (fun q hq => hps q (by simp [hq]))

/-- Request-log lemma for the lazy walker: a walk only appends to the log,
and, when the page carries `params = some s`, every appended path is a
continuation URL built with those same params. -/
theorem walk_requests (curs : T → String) :
    ∀ (n : Nat) (d : List T) (hm : Bool) (tc : Option Nat) (url : String)
      (pp : Option String) (sc : List (Except Error (StripeList T))) (rs : List String),
      sc.length < n →
    ∃ t, (walkAux curs ⟨d, hm, tc, url, pp⟩ ⟨sc, rs⟩).snd.requests = rs ++ t
       ∧ ∀ s, pp = some s → ∀ r ∈ t, ∃ u i, r = nextUrl u i (some s) := by
  intro n
  induction n with
  | zero => intro d hm tc url pp sc rs hlen; exact absurd hlen (Nat.not_lt_zero _)
  | succ n ih =>
    intro d hm tc url pp sc rs hlen
    by_cases hd0 : d = []
    · refine ⟨[], ?_, by simp⟩
      rw [walk_data_nil curs ⟨d, hm, tc, url, pp⟩ ⟨sc, rs⟩ hd0]
      simp
    · have hrepr : (⟨d, hm, tc, url, pp⟩ : StripeList T)
          = ⟨d.reverse.reverse, hm, tc, url, pp⟩ := by rw [List.reverse_reverse]
      have hDne : d.reverse ≠ [] := by simpa using hd0
      rw [hrepr, walk_split curs d.reverse hDne hm tc url pp _]
      cases hm with
      | false =>
        rw [walk_one_false curs tc url pp _ (d.reverse.getLast hDne)]
        exact ⟨[], by simp, by simp⟩
      | true =>
        by_cases hu : strStartsWith url "/v1/" = true
        · cases sc with
          | nil =>
            rw [walk_one_fetch_nil curs tc url pp (d.reverse.getLast hDne) rs hu]
            refine ⟨[nextUrl url (curs (d.reverse.getLast hDne)) pp], by simp, ?_⟩
            intro s hs r hr
            rw [List.mem_singleton] at hr
            subst hr
            exact ⟨url, curs (d.reverse.getLast hDne), by rw [hs]⟩
          | cons r0 rest =>
            cases r0 with
            | error e =>
              rw [walk_one_fetch_error curs tc url pp (d.reverse.getLast hDne) e rest rs hu]
              refine ⟨[nextUrl url (curs (d.reverse.getLast hDne)) pp], by simp, ?_⟩
              intro s hs r hr
              rw [List.mem_singleton] at hr
              subst hr
              exact ⟨url, curs (d.reverse.getLast hDne), by rw [hs]⟩
            | ok p =>
              rw [walk_one_fetch_ok curs tc url pp (d.reverse.getLast hDne) p rest rs hu]
              obtain ⟨pd, phm, ptc, purl, ppp⟩ := p
              rw [stampParams_mk]
              dsimp only
              have hlen2 : rest.length < n := by
                simp at hlen
                omega
              obtain ⟨t2, ht2, hprop2⟩ := ih pd.reverse phm ptc purl (stampOpt pp ppp)
                rest (rs ++ [nextUrl url (curs (d.reverse.getLast hDne)) pp]) hlen2
              refine ⟨nextUrl url (curs (d.reverse.getLast hDne)) pp :: t2, ?_, ?_⟩
              · rw [ht2]
                simp
              · intro s hs r hr
                rw [List.mem_cons] at hr
                rcases hr with hr | hr
                · subst hr
                  exact ⟨url, curs (d.reverse.getLast hDne), by rw [hs]⟩
                · have hso : stampOpt pp ppp = some s := by rw [hs]; rfl
                  exact hprop2 s hso r hr
        · have hu2 : strStartsWith url "/v1/" = false := by
            simpa using hu
          rw [walk_one_fetch_bad curs tc url pp (d.reverse.getLast hDne) ⟨sc, rs⟩ hu2]
          exact ⟨[], by simp, by simp⟩

theorem stringExtData {a b : String} (h : a.data = b.data) : a = b := by
  obtain ⟨da⟩ := a
  obtain ⟨db⟩ := b
  simp at h
  rw [h]

theorem strDataAppend (a b : String) : (a ++ b).data = a.data ++ b.data := by
  obtain ⟨da⟩ := a
  obtain ⟨db⟩ := b
  rfl

theorem strAppendAssoc (a b c : String) : a ++ b ++ c = a ++ (b ++ c) := by
  apply stringExtData
  rw [strDataAppend, strDataAppend, strDataAppend, strDataAppend, List.append_assoc]

theorem strAppendEmpty (a : String) : a ++ "" = a := by
  apply stringExtData
  rw [strDataAppend]
  simp [show ("" : String).data = [] from rfl]

theorem amp_lit : ("&starting_after=" : String) = "&" ++ "starting_after=" := by decide

theorem qm_lit : ("?starting_after=" : String) = "?" ++ "starting_after=" := by decide

theorem flat_case1 (B i sep S : String) (hS : S = sep ++ "starting_after=") :
    B ++ (S ++ i) = B ++ sep ++ "starting_after=" ++ i ++ "" := by
  rw [strAppendEmpty, hS, strAppendAssoc B sep "starting_after=",
    strAppendAssoc B (sep ++ "starting_after=") i]

theorem flat_case2 (B i sep S E : String) (hS : S = sep ++ "starting_after=") :
    B ++ (S ++ i) ++ E = B ++ sep ++ "starting_after=" ++ i ++ E := by
  rw [hS, strAppendAssoc B sep "starting_after=",
    strAppendAssoc B (sep ++ "starting_after=") i]

/-- Flat characterisation of the continuation URL, matching the wording of
the wire contract: stripped path, separator, cursor parameter, optional
params tail. -/
theorem nextUrl_flat (u i : String) (pp : Option String) :
    nextUrl u i pp
      = trimStartMatches u "/v1/"
        ++ (if strContainsChar (trimStartMatches u "/v1/") '?' then "&" else "?")
        ++ "starting_after=" ++ i
        ++ (match pp with
            | some p => if p.data.isEmpty then "" else "&" ++ p
            | none => "") := by
  unfold nextUrl
  dsimp only
  cases pp with
  | none =>
    show (if strContainsChar (trimStartMatches u "/v1/") '?' = true then
            trimStartMatches u "/v1/" ++ ("&starting_after=" ++ i)
          else trimStartMatches u "/v1/" ++ ("?starting_after=" ++ i))
        = trimStartMatches u "/v1/"
          ++ (if strContainsChar (trimStartMatches u "/v1/") '?' = true then "&" else "?")
          ++ "starting_after=" ++ i ++ ""
    by_cases hc : strContainsChar (trimStartMatches u "/v1/") '?' = true
    · rw [if_pos hc, if_pos hc]
      exact flat_case1 _ i "&" _ amp_lit
    · rw [if_neg hc, if_neg hc]
      exact flat_case1 _ i "?" _ qm_lit
  | some p =>
    show (if p.data.isEmpty = true then
            (if strContainsChar (trimStartMatches u "/v1/") '?' = true then
              trimStartMatches u "/v1/" ++ ("&starting_after=" ++ i)
            else trimStartMatches u "/v1/" ++ ("?starting_after=" ++ i))
          else
            (if strContainsChar (trimStartMatches u "/v1/") '?' = true then
              trimStartMatches u "/v1/" ++ ("&starting_after=" ++ i)
            else trimStartMatches u "/v1/" ++ ("?starting_after=" ++ i)) ++ ("&" ++ p))
        = trimStartMatches u "/v1/"
          ++ (if strContainsChar (trimStartMatches u "/v1/") '?' = true then "&" else "?")
          ++ "starting_after=" ++ i
          ++ (if p.data.isEmpty = true then "" else "&" ++ p)
    by_cases hp : p.data.isEmpty = true
    · rw [if_pos hp, if_pos hp]
      by_cases hc : strContainsChar (trimStartMatches u "/v1/") '?' = true
      · rw [if_pos hc, if_pos hc]
        exact flat_case1 _ i "&" _ amp_lit
      · rw [if_neg hc, if_neg hc]
        exact flat_case1 _ i "?" _ qm_lit
    · rw [if_neg hp, if_neg hp]
      by_cases hc : strContainsChar (trimStartMatches u "/v1/") '?' = true
      · rw [if_pos hc, if_pos hc]
        exact flat_case2 _ i "&" _ ("&" ++ p) amp_lit
      · rw [if_neg hc, if_neg hc]
        exact flat_case2 _ i "?" _ ("&" ++ p) qm_lit

theorem ne_empty_data {s : String} (hs : s ≠ "") : s.data ≠ [] := by
  intro h
  apply hs
  exact stringExtData (by rw [h])

/-- Every continuation URL built with nonempty params has the params,
preceded by an ampersand, as a suffix of its character sequence. -/
theorem nextUrl_param_infix (u i s : String) (hs : s.data ≠ []) :
    ('&' :: s.data) <:+: (nextUrl u i (some s)).data := by
  have hie : s.data.isEmpty = false := by
    cases hd : s.data with
    | nil => exact absurd hd hs
    | cons a t => rfl
  unfold nextUrl
  dsimp only
  show ('&' :: s.data) <:+:
      ((if s.data.isEmpty = true then
          (if strContainsChar (trimStartMatches u "/v1/") '?' = true then
            trimStartMatches u "/v1/" ++ ("&starting_after=" ++ i)
          else trimStartMatches u "/v1/" ++ ("?starting_after=" ++ i))
        else
          (if strContainsChar (trimStartMatches u "/v1/") '?' = true then
            trimStartMatches u "/v1/" ++ ("&starting_after=" ++ i)
          else trimStartMatches u "/v1/" ++ ("?starting_after=" ++ i)) ++ ("&" ++ s))).data
  rw [if_neg (by simp [hie])]
  apply List.IsSuffix.isInfix
  rw [strDataAppend, strDataAppend]
  rw [show ("&" : String).data = ['&'] from rfl]
  exact List.suffix_append _ _

theorem next_empty (curs : T → String) (l : StripeList T) (c : Client T)
    (h : l.data = []) :
    next curs l c
      = (Except.ok (⟨[], false, l.total_count, l.url, l.params⟩ : StripeList T), c) := by
  unfold next
  rw [h]
  rfl

theorem ne_nil_isEmpty_false {l : List α} (h : l ≠ []) : l.isEmpty = false := by
  cases l with
  | nil => exact absurd rfl h
  | cons a t => rfl

/-- The continuation request a page issues when it is exhausted: the
next-page URL built from the page's url and params and the cursor of the
page's last item.  A page with empty data issues no request; the empty
default is unreachable wherever this is used, because the trace guards on
nonempty data first. -/
def lastReq (curs : T → String) (l : StripeList T) : String :=
  match l.data.getLast? with
  | some v => nextUrl l.url (curs v) l.params
  | none => ""

theorem lastReq_eq (curs : T → String) (l : StripeList T) (hd : l.data ≠ []) :
    lastReq curs l = nextUrl l.url (curs (l.data.getLast hd)) l.params := by
  unfold lastReq
  rw [List.getLast?_eq_getLast l.data hd]

/-- The exact request trace of a lazy walk over a given transport script:
while the current page has items, announces more data and carries a
same-version url, the walk issues exactly one request built from the
cursor of the page's last item, then continues through a successfully
fetched (and params-restamped) page; an exhausted script, an error
response, an empty page, `has_more = false` or a cross-version url all
end the trace. -/
def reqTrace (curs : T → String) :
    StripeList T → List (Except Error (StripeList T)) → List String
  | l, [] =>
    if l.data.isEmpty then []
    else if !l.has_more then []
    else if !strStartsWith l.url "/v1/" then []
    else [lastReq curs l]
  | l, r :: rest =>
    if l.data.isEmpty then []
    else if !l.has_more then []
    else if !strStartsWith l.url "/v1/" then []
    else
      lastReq curs l ::
        (match r with
         | Except.ok p => reqTrace curs (stampParams l.params p) rest
         | Except.error _ => [])

theorem reqTrace_data_empty (curs : T → String) (l : StripeList T)
    (sc : List (Except Error (StripeList T))) (h : l.data = []) :
    reqTrace curs l sc = [] := by
  cases sc <;> simp [reqTrace, h]

theorem reqTrace_no_more (curs : T → String) (l : StripeList T)
    (sc : List (Except Error (StripeList T))) (h : l.has_more = false) :
    reqTrace curs l sc = [] := by
  cases sc <;> simp [reqTrace, h]

theorem reqTrace_bad_url (curs : T → String) (l : StripeList T)
    (sc : List (Except Error (StripeList T)))
    (h : strStartsWith l.url "/v1/" = false) :
    reqTrace curs l sc = [] := by
  cases sc <;> simp [reqTrace, h]

theorem reqTrace_nil_fetch (curs : T → String) (l : StripeList T)
    (h1 : l.data.isEmpty = false) (h2 : l.has_more = true)
    (h3 : strStartsWith l.url "/v1/" = true) :
    reqTrace curs l [] = [lastReq curs l] := by
  simp [reqTrace, h1, h2, h3]

theorem reqTrace_cons_error (curs : T → String) (l : StripeList T) (e : Error)
    (rest : List (Except Error (StripeList T)))
    (h1 : l.data.isEmpty = false) (h2 : l.has_more = true)
    (h3 : strStartsWith l.url "/v1/" = true) :
    reqTrace curs l (Except.error e :: rest) = [lastReq curs l] := by
  simp [reqTrace, h1, h2, h3]

theorem reqTrace_cons_ok (curs : T → String) (l : StripeList T) (p : StripeList T)
    (rest : List (Except Error (StripeList T)))
    (h1 : l.data.isEmpty = false) (h2 : l.has_more = true)
    (h3 : strStartsWith l.url "/v1/" = true) :
    reqTrace curs l (Except.ok p :: rest)
      = lastReq curs l :: reqTrace curs (stampParams l.params p) rest := by
  simp [reqTrace, h1, h2, h3]

/-- The request log of any lazy walk is exactly its request trace: one
request per page boundary, each built from the exhausted page's url and
params and the cursor of that page's last item, whatever the script
holds. -/
theorem walk_reqTrace (curs : T → String) :
    ∀ (n : Nat) (d : List T) (hm : Bool) (tc : Option Nat) (url : String)
      (pp : Option String) (sc : List (Except Error (StripeList T)))
      (rs : List String), sc.length < n →
    (walkAux curs ⟨d.reverse, hm, tc, url, pp⟩ ⟨sc, rs⟩).snd.requests
      = rs ++ reqTrace curs ⟨d, hm, tc, url, pp⟩ sc := by
  intro n
  induction n with
  | zero => intro d hm tc url pp sc rs hlen; exact absurd hlen (Nat.not_lt_zero _)
  | succ n ih =>
    intro d hm tc url pp sc rs hlen
    by_cases hd0 : d = []
    · subst hd0
      rw [walk_data_nil curs ⟨([] : List T).reverse, hm, tc, url, pp⟩ ⟨sc, rs⟩ rfl,
        reqTrace_data_empty curs ⟨[], hm, tc, url, pp⟩ sc rfl]
      simp
    · have hie : d.isEmpty = false := ne_nil_isEmpty_false hd0
      rw [walk_split curs d hd0 hm tc url pp _]
      cases hm with
      | false =>
        rw [walk_one_false curs tc url pp _ (d.getLast hd0),
          reqTrace_no_more curs ⟨d, false, tc, url, pp⟩ sc rfl]
        simp
      | true =>
        by_cases hu : strStartsWith url "/v1/" = true
        · cases sc with
          | nil =>
            rw [walk_one_fetch_nil curs tc url pp (d.getLast hd0) rs hu,
              reqTrace_nil_fetch curs ⟨d, true, tc, url, pp⟩ hie rfl hu,
              lastReq_eq curs ⟨d, true, tc, url, pp⟩ hd0]
          | cons r0 rest =>
            cases r0 with
            | error e =>
              rw [walk_one_fetch_error curs tc url pp (d.getLast hd0) e rest rs hu,
                reqTrace_cons_error curs ⟨d, true, tc, url, pp⟩ e rest hie rfl hu,
                lastReq_eq curs ⟨d, true, tc, url, pp⟩ hd0]
            | ok p =>
              rw [walk_one_fetch_ok curs tc url pp (d.getLast hd0) p rest rs hu]
              obtain ⟨pd, phm, ptc, purl, ppp⟩ := p
              rw [stampParams_mk]
              dsimp only
              have hlen2 : rest.length < n := by
                simp at hlen
                omega
              rw [ih pd phm ptc purl (stampOpt pp ppp) rest
                (rs ++ [nextUrl url (curs (d.getLast hd0)) pp]) hlen2]
              rw [reqTrace_cons_ok curs ⟨d, true, tc, url, pp⟩
                ⟨pd, phm, ptc, purl, ppp⟩ rest hie rfl hu]
              rw [stampParams_mk,
                lastReq_eq curs ⟨d, true, tc, url, pp⟩ hd0]
              simp
        · have hu2 : strStartsWith url "/v1/" = false := by
            simpa using hu
          rw [walk_one_fetch_bad curs tc url pp (d.getLast hd0) ⟨sc, rs⟩ hu2,
            reqTrace_bad_url curs ⟨d, true, tc, url, pp⟩ sc hu2]
          simp

/-- The continuation path as the specification sentence of claim C4 words
it: version prefix removed exactly once, `starting_after` joined with `?`
or `&`, and, whenever params are present, `&` plus the params string. -/
def specNextUrl (url : String) (last_id : String) (params : Option String) : String :=
  let u := strDrop url (strLen "/v1/")
  let u :=
    if strContainsChar u '?' then u ++ ("&starting_after=" ++ last_id)
    else u ++ ("?starting_after=" ++ last_id)
  match params with
  | some p => u ++ ("&" ++ p)
  | none => u

/-- Claim C1 (amended): when page 1 (nonempty, `has_more = true`, valid
version prefix) is walked lazily and the fetch of page 2 fails with error
`e`, the stream yields every item of page 1 except the last, in order,
followed by exactly one terminal element carrying `e`, and terminates
after issuing exactly one fetch; the popped last item of page 1 is
discarded, not yielded. -/
theorem C1_error_is_terminal (curs : T → String) (d : List T) (hd : d ≠ [])
    (tc : Option Nat) (url : String) (pp : Option String) (e : Error)
    (rest : List (Except Error (StripeList T))) (rs : List String)
    (hu : strStartsWith url "/v1/" = true) :
    get_all curs (⟨d, true, tc, url, pp⟩ : StripeList T) ⟨Except.error e :: rest, rs⟩
      = (d.dropLast.map Except.ok ++ [Except.error e],
         ⟨rest, rs ++ [nextUrl url (curs (d.getLast hd)) pp]⟩) :=
  walk_error curs d hd tc url pp e rest rs hu

theorem C1_witness :
    (["a", "b"] : List String) ≠ []
    ∧ strStartsWith "/v1/w" "/v1/" = true
    ∧ get_all (fun x => x) (⟨["a", "b"], true, none, "/v1/w", none⟩ : StripeList String)
        ⟨[Except.error (Error.Http 7)], []⟩
      = ([Except.ok "a", Except.error (Error.Http 7)],
         ⟨[], ["w?starting_after=b"]⟩) := by
  refine ⟨by decide, by decide, ?_⟩
  rw [C1_error_is_terminal (fun x : String => x) ["a", "b"] (by decide) none "/v1/w"
      none (Error.Http 7) [] [] (by decide)]
  decide

theorem C1_counterexample :
    (get_all (fun x => x) (⟨["a", "b"], true, none, "/v1/w", none⟩ : StripeList String)
        ⟨[Except.error (Error.Http 7)], []⟩).fst
      = [Except.ok "a", Except.error (Error.Http 7)]
    ∧ ([Except.ok "a", Except.error (Error.Http 7)] : List (Except Error String))
      ≠ [Except.ok "a", Except.ok "b", Except.error (Error.Http 7)] := by
  constructor
  · have h := walk_error (fun x : String => x) ["a", "b"] (by decide) none "/v1/w" none
      (Error.Http 7) [] [] (by decide)
    have hget : get_all (fun x : String => x)
        (⟨["a", "b"], true, none, "/v1/w", none⟩ : StripeList String)
        ⟨[Except.error (Error.Http 7)], []⟩
        = walkAux (fun x : String => x)
            ⟨(["a", "b"] : List String).reverse, true, none, "/v1/w", none⟩
            ⟨[Except.error (Error.Http 7)], []⟩ := rfl
    rw [hget, h]
    decide
  · decide

/-- Claim C2 (amended): for a chain of pages P1..Pn in which every page
with `has_more = true` has nonempty data and a same-version url, Pn has
`has_more = false`, and every continuation fetch succeeds returning the
next page, the lazy walk yields exactly the concatenation of the pages'
data in order, with nothing dropped, duplicated or reordered. -/
theorem C2_lazy_walk_concatenation (curs : T → String) (l : StripeList T)
    (pages : List (StripeList T)) (sc : List (Except Error (StripeList T)))
    (rs : List String) (h : chainB l pages = true) :
    (get_all curs l ⟨pages.map Except.ok ++ sc, rs⟩).fst
      = ((l :: pages).map StripeList.data).flatten.map Except.ok := by
  obtain ⟨d, hm, tc, url, pp⟩ := l
  have hw := walk_chain curs pages d hm tc url pp sc rs h
  have hget : get_all curs (⟨d, hm, tc, url, pp⟩ : StripeList T)
      ⟨pages.map Except.ok ++ sc, rs⟩
      = walkAux curs ⟨d.reverse, hm, tc, url, pp⟩ ⟨pages.map Except.ok ++ sc, rs⟩ := rfl
  rw [hget, hw]
  simp

theorem C2_witness :
    chainB (⟨["a", "b"], true, none, "/v1/things", none⟩ : StripeList String)
      [⟨["c"], false, none, "/v1/things", none⟩] = true
    ∧ (get_all (fun x => x)
        (⟨["a", "b"], true, none, "/v1/things", none⟩ : StripeList String)
        ⟨[Except.ok (⟨["c"], false, none, "/v1/things", none⟩ : StripeList String)],
         []⟩).fst
      = [Except.ok "a", Except.ok "b", Except.ok "c"] := by
  refine ⟨by decide, ?_⟩
  have h := C2_lazy_walk_concatenation (fun x : String => x)
    (⟨["a", "b"], true, none, "/v1/things", none⟩ : StripeList String)
    [⟨["c"], false, none, "/v1/things", none⟩] [] [] (by decide)
  exact h.trans (by decide)

theorem C2_counterexample :
    (get_all (fun x => x) (⟨["a"], true, none, "/v1/w", none⟩ : StripeList String)
        ⟨[Except.ok (⟨[], true, none, "/v1/w", none⟩ : StripeList String),
          Except.ok (⟨["c"], false, none, "/v1/w", none⟩ : StripeList String)], []⟩).fst
      = [Except.ok "a"]
    ∧ ([Except.ok "a"] : List (Except Error String))
      ≠ [Except.ok "a", Except.ok "c"] := by
  refine ⟨?_, by decide⟩
  have hget : get_all (fun x : String => x)
      (⟨["a"], true, none, "/v1/w", none⟩ : StripeList String)
      ⟨[Except.ok (⟨[], true, none, "/v1/w", none⟩ : StripeList String),
        Except.ok (⟨["c"], false, none, "/v1/w", none⟩ : StripeList String)], []⟩
      = walkAux (fun x : String => x) ⟨["a"], true, none, "/v1/w", none⟩
          ⟨[Except.ok (⟨[], true, none, "/v1/w", none⟩ : StripeList String),
            Except.ok (⟨["c"], false, none, "/v1/w", none⟩ : StripeList String)], []⟩ := rfl
  rw [hget, walk_one_fetch_ok (fun x : String => x) none "/v1/w" none "a"
      (⟨[], true, none, "/v1/w", none⟩ : StripeList String)
      [Except.ok (⟨["c"], false, none, "/v1/w", none⟩ : StripeList String)] []
      (by decide)]
  rw [walk_data_nil (fun x : String => x)
      { stampParams none (⟨[], true, none, "/v1/w", none⟩ : StripeList String) with
        data := (stampParams none
          (⟨[], true, none, "/v1/w", none⟩ : StripeList String)).data.reverse }
      ⟨[Except.ok (⟨["c"], false, none, "/v1/w", none⟩ : StripeList String)],
       [] ++ [nextUrl "/v1/w" "a" none]⟩ rfl]

/-- Claim C3 (amended): an empty page is treated as the end of the
collection, not as an error, even when it still announces
`has_more = true`: `List::next` returns `Ok` of an empty terminal page and
the lazy walk terminates immediately, with no fetch issued and no error
surfaced. -/
theorem C3_empty_page_is_silent (curs : T → String) (l : StripeList T)
    (c : Client T) (h : l.data = []) (hm : l.has_more = true) :
    next curs l c
      = (Except.ok (⟨[], false, l.total_count, l.url, l.params⟩ : StripeList T), c)
    ∧ get_all curs l c = ([], c) := by
  refine ⟨next_empty curs l c h, ?_⟩
  exact walk_data_nil curs _ c
    (by show l.data.reverse = []; rw [h]; rfl)

theorem C3_witness :
    (⟨[], true, some 2, "/v1/w", some "q"⟩ : StripeList String).data = []
    ∧ (⟨[], true, some 2, "/v1/w", some "q"⟩ : StripeList String).has_more = true
    ∧ next (fun x => x) (⟨[], true, some 2, "/v1/w", some "q"⟩ : StripeList String)
        ⟨[], []⟩
      = (Except.ok (⟨[], false, some 2, "/v1/w", some "q"⟩ : StripeList String),
         ⟨[], []⟩)
    ∧ get_all (fun x => x) (⟨[], true, some 2, "/v1/w", some "q"⟩ : StripeList String)
        ⟨[], []⟩ = ([], ⟨[], []⟩) := by
  have h := C3_empty_page_is_silent (fun x : String => x)
    (⟨[], true, some 2, "/v1/w", some "q"⟩ : StripeList String) ⟨[], []⟩ rfl rfl
  exact ⟨rfl, rfl, h.1, h.2⟩

theorem C3_counterexample :
    next (fun x => x) (⟨[], true, none, "/v1/w", none⟩ : StripeList String) ⟨[], []⟩
      = (Except.ok (⟨[], false, none, "/v1/w", none⟩ : StripeList String), ⟨[], []⟩)
    ∧ get_all (fun x => x) (⟨[], true, none, "/v1/w", none⟩ : StripeList String)
        ⟨[], []⟩ = ([], ⟨[], []⟩) := by
  constructor
  · decide
  · exact walk_data_nil (fun x : String => x) _ _ rfl

/-- Claim C4 (amended): for a url carrying the `/v1/` version prefix, the
fetcher issues exactly one GET whose path is the url with all leading
occurrences of `/v1/` removed (as `trim_start_matches` does, not exactly
once), followed by `starting_after=<last_id>` joined with `?` when the
stripped url has no query separator and `&` otherwise, followed by `&` and
the params string when params are present and nonempty (an empty params
string is skipped). -/
theorem C4_continuation_request_path (c : Client T) (u i : String)
    (pp : Option String) (hu : strStartsWith u "/v1/" = true) :
    (get_next c u i pp).snd.requests
      = c.requests
        ++ [trimStartMatches u "/v1/"
             ++ (if strContainsChar (trimStartMatches u "/v1/") '?' then "&" else "?")
             ++ "starting_after=" ++ i
             ++ (match pp with
                 | some p => if p.data.isEmpty then "" else "&" ++ p
                 | none => "")] := by
  rw [get_next_requests c u i pp hu, nextUrl_flat]

theorem C4_witness :
    strStartsWith "/v1/items?x=1" "/v1/" = true
    ∧ (get_next (⟨[], []⟩ : Client String) "/v1/items?x=1" "z"
        (some "limit=5")).snd.requests
      = [] ++ ["items?x=1&starting_after=z&limit=5"] := by
  refine ⟨by decide, ?_⟩
  have h := C4_continuation_request_path (⟨[], []⟩ : Client String) "/v1/items?x=1"
    "z" (some "limit=5") (by decide)
  exact h.trans (by decide)

theorem C4_counterexample :
    (get_next (⟨[], []⟩ : Client String) "/v1//v1/a" "x" (some "")).snd.requests
      = ["a?starting_after=x"]
    ∧ specNextUrl "/v1//v1/a" "x" (some "") = "/v1/a?starting_after=x&"
    ∧ ("a?starting_after=x" : String) ≠ "/v1/a?starting_after=x&" := by
  refine ⟨by decide, by decide, by decide⟩

/-- Claim C5: every continuation request issued during a walk carries
`starting_after` equal to the cursor of the last item of the page just
exhausted: `List::next` issues exactly that request, and the complete
request log of any walk of `List::get_all`, over any transport script,
equals the trace whose entries are each built from the exhausted page's
url, params and last-item cursor, so no request ever uses any other
item's cursor. -/
theorem C5_cursor_from_last_item (curs : T → String) (l : StripeList T)
    (hd : l.data ≠ []) (hu : strStartsWith l.url "/v1/" = true) :
    (∀ (sc : List (Except Error (StripeList T))) (rs : List String),
        (next curs l ⟨sc, rs⟩).snd.requests
          = rs ++ [nextUrl l.url (curs (l.data.getLast hd)) l.params])
    ∧ (∀ (l2 : StripeList T) (sc : List (Except Error (StripeList T)))
        (rs : List String),
        (get_all curs l2 ⟨sc, rs⟩).snd.requests = rs ++ reqTrace curs l2 sc) := by
  constructor
  · intro sc rs
    rw [next_cons curs _ _ hd]
    exact get_next_requests ⟨sc, rs⟩ l.url (curs (l.data.getLast hd)) l.params hu
  · intro l2 sc rs
    obtain ⟨d, hm, tc, url, pp⟩ := l2
    exact walk_reqTrace curs (sc.length + 1) d hm tc url pp sc rs (Nat.lt_succ_self _)

theorem C5_witness :
    (["a", "b"] : List String) ≠ []
    ∧ strStartsWith "/v1/w" "/v1/" = true
    ∧ (next (fun x => x) (⟨["a", "b"], true, none, "/v1/w", none⟩ : StripeList String)
        ⟨[], []⟩).snd.requests = [] ++ ["w?starting_after=b"]
    ∧ (get_all (fun x => x)
        (⟨["a", "b"], true, none, "/v1/w", none⟩ : StripeList String)
        ⟨[Except.ok (⟨["c"], true, none, "/v1/x", none⟩ : StripeList String),
          Except.ok (⟨["e"], false, none, "/v1/y", none⟩ : StripeList String)],
         []⟩).snd.requests
      = ["w?starting_after=b", "x?starting_after=c"] := by
  have h := C5_cursor_from_last_item (fun x : String => x)
    (⟨["a", "b"], true, none, "/v1/w", none⟩ : StripeList String)
    (by decide) (by decide)
  refine ⟨by decide, by decide, ?_, ?_⟩
  · exact (h.1 [] []).trans (by decide)
  · exact (h.2 (⟨["a", "b"], true, none, "/v1/w", none⟩ : StripeList String)
      [Except.ok (⟨["c"], true, none, "/v1/x", none⟩ : StripeList String),
       Except.ok (⟨["e"], false, none, "/v1/y", none⟩ : StripeList String)]
      []).trans (by decide)

/-- Claim C6: a walk whose initial page has `has_more = false` yields
exactly the page's items (hence `data.len()` of them) and terminates with
the transport untouched: zero fetches; with empty data it terminates
immediately with zero items. -/
theorem C6_no_more_no_fetch (curs : T → String) (l : StripeList T) (c : Client T)
    (h : l.has_more = false) :
    get_all curs l c = (l.data.map Except.ok, c) := by
  obtain ⟨d, hm, tc, url, pp⟩ := l
  have h2 : hm = false := h
  subst h2
  exact walk_no_more curs d tc url pp c

theorem C6_witness :
    (⟨["a", "b"], false, none, "/v1/w", none⟩ : StripeList String).has_more = false
    ∧ get_all (fun x => x)
        (⟨["a", "b"], false, none, "/v1/w", none⟩ : StripeList String) ⟨[], []⟩
      = ([Except.ok "a", Except.ok "b"], ⟨[], []⟩)
    ∧ get_all (fun x => x) (⟨[], false, none, "/v1/w", none⟩ : StripeList String)
        ⟨[], []⟩ = ([], ⟨[], []⟩) := by
  refine ⟨rfl, ?_, ?_⟩
  · rw [C6_no_more_no_fetch (fun x : String => x)
      (⟨["a", "b"], false, none, "/v1/w", none⟩ : StripeList String) ⟨[], []⟩ rfl]
    rfl
  · rw [C6_no_more_no_fetch (fun x : String => x)
      (⟨[], false, none, "/v1/w", none⟩ : StripeList String) ⟨[], []⟩ rfl]
    rfl

/-- Claim C7: a url that does not begin with the `/v1/` version prefix
makes the fetcher fail with the `Unsupported` cross-version error, leaving
the transport untouched: no request is issued. -/
theorem C7_cross_version_unsupported (c : Client T) (u i : String)
    (pp : Option String) (hu : strStartsWith u "/v1/" = false) :
    get_next c u i pp
      = (Except.error
          (Error.Unsupported "URL for fetching additional data uses different API version"),
         c) :=
  get_next_not_v1 c u i pp hu

theorem C7_witness :
    strStartsWith "/v2/charges" "/v1/" = false
    ∧ get_next (⟨[], []⟩ : Client String) "/v2/charges" "c_1" none
      = (Except.error
          (Error.Unsupported "URL for fetching additional data uses different API version"),
         ⟨[], []⟩) :=
  ⟨by decide, C7_cross_version_unsupported (⟨[], []⟩ : Client String) "/v2/charges"
    "c_1" none (by decide)⟩

/-- Claim C8 (amended): when a walk starts from a page with
`params = some s` for nonempty `s`, every request issued during the walk
contains an ampersand followed by `s`, and any page the fetcher
successfully returns when passed `some s` carries `params = some s`
again; for `s = ""` the params are silently dropped from the request. -/
theorem C8_params_preserved (curs : T → String) (d : List T) (hm2 : Bool)
    (tc : Option Nat) (url : String) (s : String)
    (sc : List (Except Error (StripeList T))) (rs : List String)
    (hs : s ≠ "") :
    (∀ r ∈ (get_all curs (⟨d, hm2, tc, url, some s⟩ : StripeList T)
        ⟨sc, rs⟩).snd.requests,
      r ∈ rs ∨ ('&' :: s.data) <:+: r.data)
    ∧ (∀ (c : Client T) (u i : String) (nl : StripeList T) (c1 : Client T),
        get_next c u i (some s) = (Except.ok nl, c1) → nl.params = some s) := by
  constructor
  · have hget : get_all curs (⟨d, hm2, tc, url, some s⟩ : StripeList T) ⟨sc, rs⟩
        = walkAux curs ⟨d.reverse, hm2, tc, url, some s⟩ ⟨sc, rs⟩ := rfl
    rw [hget]
    obtain ⟨t, ht, hprop⟩ := walk_requests curs (sc.length + 1) d.reverse hm2 tc url
      (some s) sc rs (Nat.lt_succ_self _)
    rw [ht]
    intro r hr
    rw [List.mem_append] at hr
    rcases hr with hr | hr
    · exact Or.inl hr
    · obtain ⟨u2, i2, hru⟩ := hprop s rfl r hr
      right
      rw [hru]
      exact nextUrl_param_infix u2 i2 s (ne_empty_data hs)
  · intro c u i nl c1 h
    obtain ⟨sc0, rq0⟩ := c
    by_cases hu : strStartsWith u "/v1/" = true
    · cases sc0 with
      | nil =>
        rw [get_next_nil rq0 u i (some s) hu] at h
        simp at h
      | cons r0 rest =>
        cases r0 with
        | ok p =>
          rw [get_next_cons_ok p rest rq0 u i (some s) hu] at h
          simp at h
          rw [← h.1]
          obtain ⟨pd2, phm2, ptc2, purl2, ppp2⟩ := p
          rw [stampParams_mk]
          rfl
        | error e =>
          rw [get_next_cons_error e rest rq0 u i (some s) hu] at h
          simp at h
    · rw [get_next_not_v1 _ u i (some s) (by simpa using hu)] at h
      simp at h

theorem C8_witness :
    ("limit=5" : String) ≠ ""
    ∧ (∀ r ∈ (get_all (fun x => x)
        (⟨["a"], true, none, "/v1/w", some "limit=5"⟩ : StripeList String)
        ⟨[Except.ok (⟨["b"], false, none, "/v1/w", none⟩ : StripeList String)],
         []⟩).snd.requests,
      r ∈ ([] : List String) ∨ ('&' :: ("limit=5" : String).data) <:+: r.data)
    ∧ (∀ (c : Client String) (u i : String) (nl : StripeList String)
        (c1 : Client String),
        get_next c u i (some "limit=5") = (Except.ok nl, c1) →
          nl.params = some "limit=5") := by
  have h := C8_params_preserved (fun x : String => x) ["a"] true none "/v1/w"
    "limit=5" [Except.ok (⟨["b"], false, none, "/v1/w", none⟩ : StripeList String)]
    [] (by decide)
  exact ⟨by decide, h.1, h.2⟩

theorem C8_counterexample :
    (get_all (fun x => x) (⟨["a"], true, none, "/v1/w", some ""⟩ : StripeList String)
        ⟨[], []⟩).snd.requests = ["w?starting_after=a"]
    ∧ ¬ ('&' :: ("" : String).data) <:+: ("w?starting_after=a" : String).data := by
  constructor
  · have hget : get_all (fun x : String => x)
        (⟨["a"], true, none, "/v1/w", some ""⟩ : StripeList String) ⟨[], []⟩
        = walkAux (fun x : String => x) ⟨["a"], true, none, "/v1/w", some ""⟩
            ⟨[], []⟩ := rfl
    rw [hget, walk_one_fetch_nil (fun x : String => x) none "/v1/w" (some "") "a" []
        (by decide)]
    decide
  · decide

/-- Claim C9: the eager (blocking) collector fails fast: after any chain
of successfully collected pages, the first failing page fetch makes the
whole collection return exactly that error, discarding the accumulated
items. -/
theorem C9_eager_collector_fail_fast (curs : T → String)
    (pages : List (StripeList T)) (l : StripeList T)
    (rest : List (Except Error (StripeList T))) (rs : List String) (e : Error)
    (hl : goodB l = true) (hps : ∀ p ∈ pages, goodB p = true) :
    (get_all_blocking curs l
        ⟨pages.map Except.ok ++ Except.error e :: rest, rs⟩).fst
      = Except.error e :=
  gab_fail_fast curs pages [] l rest rs e hl hps

theorem C9_witness :
    goodB (⟨["a"], true, none, "/v1/w", none⟩ : StripeList String) = true
    ∧ (∀ p ∈ [(⟨["b"], true, none, "/v1/w", none⟩ : StripeList String)],
        goodB p = true)
    ∧ (get_all_blocking (fun x => x)
        (⟨["a"], true, none, "/v1/w", none⟩ : StripeList String)
        ⟨[Except.ok (⟨["b"], true, none, "/v1/w", none⟩ : StripeList String),
          Except.error (Error.Http 3)], []⟩).fst = Except.error (Error.Http 3) := by
  refine ⟨by decide, by decide, ?_⟩
  exact C9_eager_collector_fail_fast (fun x : String => x)
    [(⟨["b"], true, none, "/v1/w", none⟩ : StripeList String)]
    (⟨["a"], true, none, "/v1/w", none⟩ : StripeList String) [] [] (Error.Http 3)
    (by decide) (by decide)

/-- Claim C10: `List::next` on a page with empty data issues no request
and returns `Ok` of a page with empty data, `has_more = false`, and
`url`, `params` and `total_count` copied from the input page, whatever
`has_more` was. -/
theorem C10_next_on_empty_page (curs : T → String) (l : StripeList T)
    (c : Client T) (h : l.data = []) :
    next curs l c
      = (Except.ok (⟨[], false, l.total_count, l.url, l.params⟩ : StripeList T), c) :=
  next_empty curs l c h

theorem C10_witness :
    (⟨[], true, some 5, "/v1/w", some "limit=3"⟩ : StripeList String).data = []
    ∧ next (fun x => x)
        (⟨[], true, some 5, "/v1/w", some "limit=3"⟩ : StripeList String) ⟨[], []⟩
      = (Except.ok (⟨[], false, some 5, "/v1/w", some "limit=3"⟩ : StripeList String),
         ⟨[], []⟩) :=
  ⟨rfl, C10_next_on_empty_page (fun x : String => x)
    (⟨[], true, some 5, "/v1/w", some "limit=3"⟩ : StripeList String) ⟨[], []⟩ rfl⟩

end StripeRs
